import Mathlib

/-!
Verification of the agent-execution engine of the lovable-clone repository.

The definitions below are a shallow embedding of the TypeScript sources
`src/inngest/functions.ts` and `src/lib/utils.ts`.  External effects
(the sandbox's command runner, file system, and the language model) are
modelled as explicit oracle parameters; fallible operations return
`Except String` values, where `.error` models a thrown exception.
-/

namespace Lovable

/-- Model of JavaScript `String.prototype.trim` on a character list:
strip leading and trailing whitespace. -/
def trimChars (l : List Char) : List Char :=
  ((l.dropWhile Char.isWhitespace).reverse.dropWhile Char.isWhitespace).reverse

/-- Model of JavaScript `String.prototype.trim`. -/
def jsTrim (s : String) : String :=
  String.mk (trimChars s.toList)

/-- JavaScript truthiness of a possibly-undefined string variable:
`undefined` (modelled as `none`) and the empty string are falsy. -/
def strTruthy : Option String → Bool
  | none => false
  | some s => !(s == "")

/-- Case-insensitive prefix test used to model the `i`-flagged regex in
`extractTaskSummary`: the pattern `pat` is given in lowercase and each
scanned character is lowered before comparison. -/
def ciStartsWith : List Char → List Char → Bool
  | [], _ => true
  | _ :: _, [] => false
  | p :: ps, c :: cs => (c.toLower == p) && ciStartsWith ps cs

/-- Exact (case-sensitive) substring test on character lists. -/
def containsSub (pat : List Char) : List Char → Bool
  | [] => pat.isEmpty
  | c :: cs => pat.isPrefixOf (c :: cs) || containsSub pat cs

/-- The opening marker of the summary regex, in lowercase characters. -/
def openTagChars : List Char := ("<task_summary>").toList

/-- The closing marker of the summary regex, in lowercase characters. -/
def closeTagChars : List Char := ("</task_summary>").toList

/-- Lazy scan for the closing marker, as performed by the non-greedy
group of the regex: returns the content before the first (leftmost)
closing marker together with the remaining suffix starting at that
marker, or `none` when no closing marker occurs. -/
def splitAtClose : List Char → Option (List Char × List Char)
  | [] => none
  | c :: cs =>
    if ciStartsWith closeTagChars (c :: cs) then some ([], c :: cs)
    else
      match splitAtClose cs with
      | some (content, rest) => some (c :: content, rest)
      | none => none

/-- Leftmost-match scan of the regex
`<task_summary>([\s\S]*?)</task_summary>` with the `i` flag: at each
position, if the opening marker matches and a closing marker occurs
later, the (lazy) content between them is returned; otherwise the scan
moves one character to the right. -/
def extractAux : List Char → Option (List Char)
  | [] => none
  | c :: cs =>
    if ciStartsWith openTagChars (c :: cs) then
      match splitAtClose (List.drop openTagChars.length (c :: cs)) with
      | some (content, _) => some content
      | none => extractAux cs
    else extractAux cs

/-- Embedding of `extractTaskSummary` from `src/lib/utils.ts`: match the
case-insensitive marker pair and return the trimmed inner content, or
`none` (JavaScript `null`) when there is no match. -/
def extractTaskSummary (s : String) : Option String :=
  (extractAux s.toList).map (fun content => String.mk (trimChars content))

/-- Spec-side description of a case-insensitive marker pair being
present in a character list: the list decomposes around an opening and
a later closing marker. -/
def markerRegion (l : List Char) : Prop :=
  ∃ pre o mid c post, l = pre ++ o ++ mid ++ c ++ post ∧
    o.map Char.toLower = openTagChars ∧ c.map Char.toLower = closeTagChars

/-- A case-insensitive occurrence of the pattern `pat` somewhere in a
character list. -/
def containsTagCI (pat : List Char) (l : List Char) : Prop :=
  ∃ u c v, l = u ++ c ++ v ∧ c.map Char.toLower = pat

/-! ### Sandbox oracles -/

/-- Outcome of `sandbox.commands.run`: either a result object (of which
the code only uses `stdout`), or a thrown exception together with the
partial stdout/stderr captured by the `onStdout`/`onStderr` buffers up
to the failure. -/
inductive CmdOutcome where
  | ok (stdout : String)
  | fail (err : String) (partialStdout : String) (partialStderr : String)
deriving DecidableEq

/-- A command-runner oracle: the behaviour of `sandbox.commands.run`
for each command string. -/
abbrev CmdRunner : Type := String → CmdOutcome

/-- A file-system read oracle: `sandbox.files.read`, which either
returns the content or throws. -/
abbrev FsRead : Type := String → Except String String

/-- A file-system write oracle: `sandbox.files.write`, which either
succeeds or throws. -/
abbrev FsWrite : Type := String → String → Except String Unit

/-! ### JSON serialization (model of `JSON.stringify` on the
`Array<{path, content}>` values produced by the read tools) -/

/-- Escaping of a single character inside a JSON string literal. -/
def jsonEscapeChar (c : Char) : List Char :=
  if c = '"' then ['\\', '"']
  else if c = '\\' then ['\\', '\\']
  else if c = '\n' then ['\\', 'n']
  else if c = '\r' then ['\\', 'r']
  else if c = '\t' then ['\\', 't']
  else [c]

/-- Escaping of a character list inside a JSON string literal. -/
def jsonEscape : List Char → List Char
  | [] => []
  | c :: cs => jsonEscapeChar c ++ jsonEscape cs

/-- A JSON string literal. -/
def jsonString (s : String) : String :=
  "\"" ++ String.mk (jsonEscape s.toList) ++ "\""

/-- One serialized `\x7bpath, content\x7d` object. -/
def jsonFilePair (pc : String × String) : String :=
  "\x7b\"path\":" ++ jsonString pc.1 ++ ",\"content\":" ++ jsonString pc.2 ++ "\x7d"

/-- Comma-separated serialized objects. -/
def jsonItems : List (String × String) → String
  | [] => ""
  | [pc] => jsonFilePair pc
  | pc :: rest => jsonFilePair pc ++ "," ++ jsonItems rest

/-- Model of `JSON.stringify(contents)` for the read tools. -/
def jsonStringifyFiles (l : List (String × String)) : String :=
  "[" ++ jsonItems l ++ "]"

/-! ### The run's mutable file map (`updatedFiles`, a JS object) -/

/-- The `updatedFiles` record: insertion-ordered key/value pairs, as a
JavaScript object of string keys. -/
abbrev FileMap : Type := List (String × String)

/-- Assignment `m[p] = c` on a JS object: overwrite the value at an
existing key in place, otherwise append the new key. -/
def setFile : FileMap → String → String → FileMap
  | [], p, c => [(p, c)]
  | (k, v) :: rest, p, c =>
    if k = p then (k, c) :: rest else (k, v) :: setFile rest p c

/-- Key lookup `m[p]` on a JS object. -/
def getFile : FileMap → String → Option String
  | [], _ => none
  | (k, v) :: rest, p => if k = p then some v else getFile rest p

/-! ### Tool execute functions (from the `tools` record of
`generateText` in `src/inngest/functions.ts`) -/

/-- Embedding of the `terminal` tool's step body: run the command with
output captured into buffers; on success return `result.stdout`, on a
thrown error return the `Command failed` text with the partial
buffers. -/
def terminalExec (runCmd : CmdRunner) (command : String) : String :=
  match runCmd command with
  | .ok out => out
  | .fail e po pe =>
    "Command failed: " ++ e ++ " \n stdout: " ++ po ++ " \n stderr: " ++ pe

/-- The read loop of the `readFiles` tool: read each path in order,
aborting with the thrown exception on the first failure. -/
def readFilesLoop (fs : FsRead) : List String → Except String (List (String × String))
  | [] => .ok []
  | p :: ps =>
    match fs p with
    | .error e => .error e
    | .ok content =>
      match readFilesLoop fs ps with
      | .error e => .error e
      | .ok rest => .ok ((p, content) :: rest)

/-- Embedding of the `readFiles` tool's step body: serialize the read
contents, or return the caught exception as an error string. -/
def readFilesExec (fs : FsRead) (files : List String) : String :=
  match readFilesLoop fs files with
  | .ok contents => jsonStringifyFiles contents
  | .error e => "Error: " ++ e

/-- The read loop of the `readFile` tool (the source duplicates the
`readFiles` loop verbatim). -/
def readFileLoop (fs : FsRead) : List String → Except String (List (String × String))
  | [] => .ok []
  | p :: ps =>
    match fs p with
    | .error e => .error e
    | .ok content =>
      match readFileLoop fs ps with
      | .error e => .error e
      | .ok rest => .ok ((p, content) :: rest)

/-- Embedding of the `readFile` tool's step body. -/
def readFileExec (fs : FsRead) (files : List String) : String :=
  match readFileLoop fs files with
  | .ok contents => jsonStringifyFiles contents
  | .error e => "Error: " ++ e

/-- The step name the `readFiles` tool passes to `step.run`. -/
def readFilesStepName : String := "read-files"

/-- The step name the `readFile` tool passes to `step.run`. -/
def readFileStepName : String := "read-files"

/-- The result value of the `createOrUpdateFiles` tool: the source
returns either the `\x7b updatedFiles \x7d` object or an error string. -/
inductive ToolOut where
  | files (m : FileMap)
  | err (s : String)
deriving DecidableEq

/-- The write loop of the `createOrUpdateFiles` tool: write each file
and record it in `updatedFiles`; on a thrown exception, stop, keeping
the updates already made, and report the exception. -/
def createOrUpdateFilesLoop (wfs : FsWrite) :
    FileMap → List (String × String) → FileMap × Option String
  | m, [] => (m, none)
  | m, (p, c) :: rest =>
    match wfs p c with
    | .ok _ => createOrUpdateFilesLoop wfs (setFile m p c) rest
    | .error e => (m, some e)

/-- Embedding of the `createOrUpdateFiles` tool's step body: returns
the updated file map (the new value of the mutable `updatedFiles`)
together with the tool result. -/
def createOrUpdateFilesExec (wfs : FsWrite) (m : FileMap)
    (files : List (String × String)) : FileMap × ToolOut :=
  match createOrUpdateFilesLoop wfs m files with
  | (m2, none) => (m2, .files m2)
  | (m2, some e) => (m2, .err ("Error: " ++ e))

/-- JavaScript `cmd.replace(/"/g, '\\"')`. -/
def quoteEscaped : List Char → List Char
  | [] => []
  | c :: cs =>
    if c = '"' then '\\' :: '"' :: quoteEscaped cs else c :: quoteEscaped cs

/-- The install command of the `startDevServer` tool. -/
def startInstallCmd : String :=
  "bash -lc \"export PNPM_HOME=~/.local/share/pnpm; export PATH=\"$PNPM_HOME:$PATH\"; corepack enable && pnpm i --silent --no-frozen-lockfile\""

/-- The launch command of the `startDevServer` tool, built around the
quoted user command. -/
def startLaunchCmd (cmd : String) : String :=
  "bash -lc \"nohup " ++ String.mk (quoteEscaped cmd.toList) ++
    " > /tmp/dev.log 2>&1 & echo $!\""

/-- The launch part of the `startDevServer` tool body. -/
def startDevLaunchPart (runCmd : CmdRunner) (cmd : String) : String :=
  match runCmd (startLaunchCmd cmd) with
  | .ok out => "Started dev server with PID " ++ jsTrim out
  | .fail e _ _ => "Error: " ++ e

/-- Embedding of the `startDevServer` tool's step body: optionally
install dependencies, then launch the dev command detached; any thrown
exception is caught and rendered as an error string. -/
def startDevServerExec (runCmd : CmdRunner) (install : Bool) (cmd : String) : String :=
  if install then
    match runCmd startInstallCmd with
    | .fail e _ _ => "Error: " ++ e
    | .ok _ => startDevLaunchPart runCmd cmd
  else startDevLaunchPart runCmd cmd

/-- The curl probe command (used both by `checkServerStatus` and by the
`ensure-dev-server` step's `isServerUp`). -/
def curlProbeCmd : String :=
  "bash -lc \"curl -s -o /dev/null -w \"%\x7bhttp_code\x7d\" http://localhost:3000\""

/-- Embedding of the `checkServerStatus` tool's step body. -/
def checkServerStatusExec (runCmd : CmdRunner) : String :=
  match runCmd curlProbeCmd with
  | .ok out => "HTTP " ++ jsTrim out
  | .fail e _ _ => "Error: " ++ e

/-! ### Run state and the `finalizeTask` tool -/

/-- The in-memory persistent state of one function invocation: the
`updatedFiles` object, the optional `summary` variable (`none` models
JavaScript `undefined`), and the `taskSummaryAchieved` flag. -/
structure RunState where
  updatedFiles : FileMap
  summary : Option String
  taskSummaryAchieved : Bool

/-- The state at the start of the agent loop. -/
def initialState : RunState := ⟨[], none, false⟩

/-- Embedding of the `finalizeTask` tool's step body: record the
trimmed summary, set `taskSummaryAchieved` to the truthiness of the
new summary, and return the literal acknowledgement. -/
def finalizeTaskStep (st : RunState) (providedSummary : String) : RunState × String :=
  let s := jsTrim providedSummary
  ({ st with summary := some s, taskSummaryAchieved := strTruthy (some s) }, "OK")

/-- Embedding of the `onStepFinish` hook: extract a summary from the
turn's text and record it only when it is truthy and no truthy summary
is already recorded. -/
def onStepFinish (st : RunState) (text : String) : RunState :=
  let maybeSummary := extractTaskSummary text
  if strTruthy maybeSummary && !(strTruthy st.summary) then
    { st with summary := maybeSummary, taskSummaryAchieved := true }
  else st

/-! ### The `ensure-dev-server` step -/

/-- Success of the liveness probe as decided from the curl stdout:
`res.stdout.trim()` must be `200` or `404`. -/
def serverUpFromStdout (stdout : String) : Bool :=
  (jsTrim stdout == "200") || (jsTrim stdout == "404")

/-- The install command of the `ensure-dev-server` bootstrap. -/
def devInstallCmd : String :=
  "bash -lc \"export PNPM_HOME=~/.local/share/pnpm; export PATH=\"$PNPM_HOME:$PATH\"; corepack enable || true; pnpm i --silent --no-frozen-lockfile || npm ci --no-audit --no-fund\""

/-- The launch command of the `ensure-dev-server` bootstrap. -/
def devLaunchCmd : String :=
  "bash -lc \"nohup pnpm dev --port 3000 > /tmp/dev.log 2>&1 & echo $!\""

/-- The poll bound of the `ensure-dev-server` loop (`for i = 0; i < 30`). -/
def maxPolls : Nat := 30

/-- The polling loop of `ensure-dev-server`, over a time-indexed probe
oracle (`probe i` is the result of the i-th call of `isServerUp`, and
`.error` models a thrown exception).  Besides the outcome, the second
component counts, as a ghost observation, how many probe calls the loop
performed (including a throwing one). -/
def pollLoop (probe : Nat → Except String Bool) : Nat → Nat → Except String String × Nat
  | _, 0 => (.ok "timeout", 0)
  | i, r + 1 =>
    match probe i with
    | .error e => (.error e, 1)
    | .ok true => (.ok "started", 1)
    | .ok false =>
      match pollLoop probe (i + 1) r with
      | (res, k) => (res, k + 1)

/-- Embedding of the `ensure-dev-server` step body.  `probe i` is the
i-th call of `isServerUp`; `install` and `launch` are the two bootstrap
commands (`.error` models a thrown exception).  The value on the `.ok`
path is the step's returned string together with two ghost
observations of the control flow: the total number of probe calls and
whether the bootstrap was entered.  A `.error` result models an
exception escaping the step.  Note that the initial probe call is made
outside the `try` block in the source. -/
def ensureDevServer (probe : Nat → Except String Bool)
    (install launch : Except String Unit) : Except String (String × Nat × Bool) :=
  match probe 0 with
  | .error e => .error e
  | .ok true => .ok ("up", 1, false)
  | .ok false =>
    match install with
    | .error e => .ok ("Error: " ++ e, 1, true)
    | .ok _ =>
      match launch with
      | .error e => .ok ("Error: " ++ e, 1, true)
      | .ok _ =>
        match pollLoop probe 1 maxPolls with
        | (.ok o, k) => .ok (o, 1 + k, true)
        | (.error e, k) => .ok ("Error: " ++ e, 1 + k, true)

/-! ### The agent loop (`generateText` with `stopWhen`) -/

/-- A tool call the model can emit, with its validated arguments. -/
inductive ToolCall where
  | terminal (command : String)
  | readFilesCall (files : List String)
  | createOrUpdate (files : List (String × String))
  | readFileCall (files : List String)
  | startDev (install : Bool) (cmd : String)
  | checkStatus
  | finalizeTaskCall (summary : String)

/-- Whether a tool call is a `finalizeTask` call. -/
def isFinalizeCall : ToolCall → Bool
  | .finalizeTaskCall _ => true
  | _ => false

/-- One model turn: the tool calls it emits and its text. -/
structure ModelTurn where
  toolCalls : List ToolCall
  text : String

/-- The `hasToolCall "finalizeTask"` stop condition on a turn. -/
def hasFinalizeCall (turn : ModelTurn) : Bool :=
  turn.toolCalls.any isFinalizeCall

/-- Effect of executing one tool call on the run state (sandbox
effects go through the oracle `wfs`; only `createOrUpdateFiles` and
`finalizeTask` touch the run state). -/
def execTool (wfs : FsWrite) (st : RunState) : ToolCall → RunState
  | .terminal _ => st
  | .readFilesCall _ => st
  | .readFileCall _ => st
  | .startDev _ _ => st
  | .checkStatus => st
  | .createOrUpdate files =>
    { st with updatedFiles := (createOrUpdateFilesLoop wfs st.updatedFiles files).1 }
  | .finalizeTaskCall s => (finalizeTaskStep st s).1

/-- Effect of one model turn on the run state: execute the turn's tool
calls in order, then run the `onStepFinish` hook on the turn's text. -/
def runTurn (wfs : FsWrite) (st : RunState) (turn : ModelTurn) : RunState :=
  onStepFinish (turn.toolCalls.foldl (execTool wfs) st) turn.text

/-- The `stepCountIs(10)` ceiling. -/
def stepCountLimit : Nat := 10

/-- The agent loop of `generateText`: `remaining` is the number of
model turns still allowed by the `stepCountIs` ceiling, `done` the
number of turns already performed.  A turn is performed, then the loop
stops when the model emitted no tool call, or a `stopWhen` condition
(`hasToolCall "finalizeTask"`, or the `taskSummaryAchieved` flag)
holds; otherwise it continues.  Returns the final state and the total
number of turns performed. -/
def agentLoopAux (wfs : FsWrite) (model : Nat → ModelTurn) :
    Nat → Nat → RunState → RunState × Nat
  | 0, done, st => (st, done)
  | r + 1, done, st =>
    let turn := model done
    let st2 := runTurn wfs st turn
    if turn.toolCalls.isEmpty || hasFinalizeCall turn || st2.taskSummaryAchieved then
      (st2, done + 1)
    else agentLoopAux wfs model r (done + 1) st2

/-- The agent loop started from a fresh turn budget. -/
def agentLoop (wfs : FsWrite) (model : Nat → ModelTurn) (st : RunState) :
    RunState × Nat :=
  agentLoopAux wfs model stepCountLimit 0 st

/-! ## Helper lemmas about the summary extractor -/

/-- When a case-insensitive prefix test succeeds, the scanned list
splits into a matched block (lowering to the pattern) and a rest. -/
theorem ciStartsWith_sound (pat : List Char) : ∀ l, ciStartsWith pat l = true →
    ∃ o rest, l = o ++ rest ∧ o.map Char.toLower = pat := by
  induction pat with
  | nil => exact fun l _ => ⟨[], l, rfl, rfl⟩
  | cons p ps ih =>
    intro l h
    cases l with
    | nil => simp [ciStartsWith] at h
    | cons c cs =>
      simp only [ciStartsWith, Bool.and_eq_true, beq_iff_eq] at h
      obtain ⟨h1, h2⟩ := h
      obtain ⟨o, rest, rfl, hmap⟩ := ih cs h2
      exact ⟨c :: o, rest, rfl, by simp [hmap, h1]⟩

/-- A block that lowers to the pattern makes the case-insensitive
prefix test succeed on any extension. -/
theorem ciStartsWith_complete : ∀ (o rest : List Char),
    ciStartsWith (o.map Char.toLower) (o ++ rest) = true := by
  intro o rest
  induction o with
  | nil => rfl
  | cons c cs ih => simp [ciStartsWith, ih]

/-- Variant of `ciStartsWith_complete` phrased with an equation. -/
theorem ciStartsWith_of_map (pat o rest : List Char)
    (h : o.map Char.toLower = pat) : ciStartsWith pat (o ++ rest) = true := by
  subst h; exact ciStartsWith_complete o rest

/-- Soundness of the lazy close-marker scan: on success the list
splits at a closing marker. -/
theorem splitAtClose_sound : ∀ l content rest,
    splitAtClose l = some (content, rest) →
    l = content ++ rest ∧ ciStartsWith closeTagChars rest = true := by
  intro l
  induction l with
  | nil => intro content rest h; simp [splitAtClose] at h
  | cons c cs ih =>
    intro content rest h
    by_cases hc : ciStartsWith closeTagChars (c :: cs) = true
    · rw [splitAtClose, if_pos hc] at h
      simp only [Option.some.injEq, Prod.mk.injEq] at h
      obtain ⟨rfl, rfl⟩ := h
      exact ⟨rfl, hc⟩
    · rw [splitAtClose, if_neg hc] at h
      cases hsp : splitAtClose cs with
      | none => rw [hsp] at h; exact absurd h (by simp)
      | some pr =>
        obtain ⟨ct, rs⟩ := pr
        rw [hsp] at h
        simp only [Option.some.injEq, Prod.mk.injEq] at h
        obtain ⟨rfl, rfl⟩ := h
        obtain ⟨ih1, ih2⟩ := ih ct rs hsp
        exact ⟨by rw [List.cons_append, ih1], ih2⟩

/-- Completeness of the lazy close-marker scan: when a closing marker
occurs somewhere in the list, the scan succeeds. -/
theorem splitAtClose_complete : ∀ l, containsTagCI closeTagChars l →
    splitAtClose l ≠ none := by
  intro l
  induction l with
  | nil =>
    rintro ⟨u, c, v, hl, hmap⟩
    obtain ⟨h12, hv⟩ := List.append_eq_nil.mp hl.symm
    obtain ⟨hu, hc⟩ := List.append_eq_nil.mp h12
    subst hc
    exact absurd hmap (by decide)
  | cons x xs ih =>
    rintro ⟨u, c, v, hl, hmap⟩
    by_cases hc : ciStartsWith closeTagChars (x :: xs) = true
    · simp [splitAtClose, hc]
    · cases u with
      | nil =>
        simp only [List.nil_append] at hl
        refine absurd ?_ hc
        rw [hl]
        exact ciStartsWith_of_map closeTagChars c v hmap
      | cons y u2 =>
        simp only [List.cons_append, List.cons.injEq] at hl
        obtain ⟨rfl, hxs⟩ := hl
        have hne := ih ⟨u2, c, v, hxs, hmap⟩
        rw [splitAtClose, if_neg hc]
        cases hsp : splitAtClose xs with
        | none => exact absurd hsp hne
        | some pr =>
          obtain ⟨ct, rs⟩ := pr
          simp

/-- Soundness of the extractor scan: on success the list decomposes
around a case-insensitive marker pair whose inner content is the
returned one. -/
theorem extractAux_sound : ∀ l content, extractAux l = some content →
    ∃ pre o c post, l = pre ++ o ++ content ++ c ++ post ∧
      o.map Char.toLower = openTagChars ∧ c.map Char.toLower = closeTagChars := by
  intro l
  induction l with
  | nil => intro content h; simp [extractAux] at h
  | cons x xs ih =>
    intro content h
    by_cases ho : ciStartsWith openTagChars (x :: xs) = true
    · rw [extractAux, if_pos ho] at h
      cases hsp : splitAtClose (List.drop openTagChars.length (x :: xs)) with
      | none =>
        rw [hsp] at h
        obtain ⟨pre, o, c, post, hl, hmo, hmc⟩ := ih content h
        exact ⟨x :: pre, o, c, post, by rw [hl]; simp, hmo, hmc⟩
      | some pr =>
        obtain ⟨ct, rs⟩ := pr
        rw [hsp] at h
        have hct : ct = content := Option.some.inj h
        subst hct
        obtain ⟨o, rest0, hxo, hmo⟩ := ciStartsWith_sound _ _ ho
        have hlen : openTagChars.length = o.length := by
          rw [← hmo, List.length_map]
        have hdrop : List.drop openTagChars.length (x :: xs) = rest0 := by
          rw [hxo, hlen, List.drop_left]
        rw [hdrop] at hsp
        obtain ⟨hsp1, hsp2⟩ := splitAtClose_sound _ _ _ hsp
        obtain ⟨c, post, hrs, hmc⟩ := ciStartsWith_sound _ _ hsp2
        refine ⟨[], o, c, post, ?_, hmo, hmc⟩
        rw [hxo, hsp1, hrs]
        simp
    · rw [extractAux, if_neg ho] at h
      obtain ⟨pre, o, c, post, hl, hmo, hmc⟩ := ih content h
      exact ⟨x :: pre, o, c, post, by rw [hl]; simp, hmo, hmc⟩

/-- Completeness of the extractor scan: when a case-insensitive marker
pair is present, the scan succeeds. -/
theorem extractAux_complete : ∀ l, markerRegion l → extractAux l ≠ none := by
  intro l
  induction l with
  | nil =>
    rintro ⟨pre, o, mid, c, post, hl, hmo, hmc⟩
    obtain ⟨h1, hpost⟩ := List.append_eq_nil.mp hl.symm
    obtain ⟨h2, hcn⟩ := List.append_eq_nil.mp h1
    obtain ⟨h3, hmid⟩ := List.append_eq_nil.mp h2
    obtain ⟨hpre, ho⟩ := List.append_eq_nil.mp h3
    subst ho
    exact absurd hmo (by decide)
  | cons x xs ih =>
    rintro ⟨pre, o, mid, c, post, hl, hmo, hmc⟩
    by_cases ho : ciStartsWith openTagChars (x :: xs) = true
    · cases hsp : splitAtClose (List.drop openTagChars.length (x :: xs)) with
      | some pr =>
        obtain ⟨ct, rs⟩ := pr
        rw [extractAux, if_pos ho, hsp]
        simp
      | none =>
        cases pre with
        | nil =>
          simp only [List.nil_append] at hl
          have hlen : openTagChars.length = o.length := by
            rw [← hmo, List.length_map]
          have hdrop : List.drop openTagChars.length (x :: xs) = mid ++ c ++ post := by
            rw [hl, hlen]
            rw [show o ++ mid ++ c ++ post = o ++ (mid ++ c ++ post) by simp]
            exact List.drop_left o (mid ++ c ++ post)
          have : splitAtClose (mid ++ c ++ post) ≠ none :=
            splitAtClose_complete _ ⟨mid, c, post, by simp, hmc⟩
          rw [hdrop] at hsp
          exact absurd hsp this
        | cons y pre2 =>
          simp only [List.cons_append, List.cons.injEq] at hl
          obtain ⟨rfl, hxs⟩ := hl
          have hne := ih ⟨pre2, o, mid, c, post, hxs, hmo, hmc⟩
          rw [extractAux, if_pos ho, hsp]
          exact hne
    · cases pre with
      | nil =>
        simp only [List.nil_append] at hl
        have : ciStartsWith openTagChars (x :: xs) = true := by
          rw [hl, show o ++ mid ++ c ++ post = o ++ (mid ++ c ++ post) by simp]
          exact ciStartsWith_of_map openTagChars o _ hmo
        exact absurd this ho
      | cons y pre2 =>
        simp only [List.cons_append, List.cons.injEq] at hl
        obtain ⟨rfl, hxs⟩ := hl
        have hne := ih ⟨pre2, o, mid, c, post, hxs, hmo, hmc⟩
        rw [extractAux, if_neg ho]
        exact hne

/-! ## Helper lemmas about the polling loop -/

/-- When the probe fails `m` times from call `i` and succeeds at call
`i + m`, with at least `m + 1` iterations left, polling stops at the
first success after exactly `m + 1` polls. -/
theorem pollLoop_started (probe : Nat → Except String Bool) :
    ∀ m i remaining, m < remaining →
    (∀ j, j < m → probe (i + j) = .ok false) →
    probe (i + m) = .ok true →
    pollLoop probe i remaining = (.ok "started", m + 1) := by
  intro m
  induction m with
  | zero =>
    intro i remaining hlt _ htrue
    cases remaining with
    | zero => omega
    | succ r =>
      rw [pollLoop]
      rw [show i + 0 = i from rfl] at htrue
      rw [htrue]
  | succ m ih =>
    intro i remaining hlt hfalse htrue
    cases remaining with
    | zero => omega
    | succ r =>
      rw [pollLoop]
      have h0 : probe i = .ok false := by
        have := hfalse 0 (Nat.succ_pos m)
        simpa using this
      rw [h0]
      have hrec := ih (i + 1) r (by omega)
        (fun j hj => by
          rw [show i + 1 + j = i + (j + 1) by omega]
          exact hfalse (j + 1) (by omega))
        (by rw [show i + 1 + m = i + (m + 1) by omega]; exact htrue)
      rw [hrec]

/-- When the probe fails on every remaining iteration, polling returns
the timeout outcome after exactly that many polls. -/
theorem pollLoop_timeout (probe : Nat → Except String Bool) :
    ∀ remaining i, (∀ j, j < remaining → probe (i + j) = .ok false) →
    pollLoop probe i remaining = (.ok "timeout", remaining) := by
  intro remaining
  induction remaining with
  | zero => intro i _; rfl
  | succ r ih =>
    intro i hfalse
    rw [pollLoop]
    have h0 : probe i = .ok false := by
      have := hfalse 0 (Nat.succ_pos r)
      simpa using this
    rw [h0]
    have hrec := ih (i + 1) (fun j hj => by
      rw [show i + 1 + j = i + (j + 1) by omega]
      exact hfalse (j + 1) (by omega))
    rw [hrec]

/-! ## Helper lemmas about the agent loop -/

/-- Tool calls other than `finalizeTask` leave the summary state
untouched. -/
theorem execTool_preserves (wfs : FsWrite) (st : RunState) (c : ToolCall)
    (h : isFinalizeCall c = false) :
    (execTool wfs st c).summary = st.summary ∧
    (execTool wfs st c).taskSummaryAchieved = st.taskSummaryAchieved := by
  cases c <;> simp_all [execTool, isFinalizeCall]

/-- A turn's whole tool-call list, when it contains no `finalizeTask`
call, leaves the summary state untouched. -/
theorem foldl_execTool_preserves (wfs : FsWrite) :
    ∀ (calls : List ToolCall) (st : RunState),
    (∀ c ∈ calls, isFinalizeCall c = false) →
    ((calls.foldl (execTool wfs) st).summary = st.summary ∧
     (calls.foldl (execTool wfs) st).taskSummaryAchieved = st.taskSummaryAchieved) := by
  intro calls
  induction calls with
  | nil => exact fun st _ => ⟨rfl, rfl⟩
  | cons c cs ih =>
    intro st h
    have h1 := execTool_preserves wfs st c (h c (by simp))
    have h2 := ih (execTool wfs st c) (fun d hd => h d (by simp [hd]))
    simp only [List.foldl_cons]
    exact ⟨h2.1.trans h1.1, h2.2.trans h1.2⟩

/-- The hook is the identity when the turn's text holds no marker. -/
theorem onStepFinish_no_marker (st : RunState) (text : String)
    (h : extractTaskSummary text = none) : onStepFinish st text = st := by
  simp [onStepFinish, h, strTruthy]

/-- A turn with no `finalizeTask` call and no marker in its text leaves
the summary state untouched. -/
theorem runTurn_no_summary (wfs : FsWrite) (st : RunState) (turn : ModelTurn)
    (hcalls : ∀ c ∈ turn.toolCalls, isFinalizeCall c = false)
    (htext : extractTaskSummary turn.text = none) :
    (runTurn wfs st turn).summary = st.summary ∧
    (runTurn wfs st turn).taskSummaryAchieved = st.taskSummaryAchieved := by
  unfold runTurn
  rw [onStepFinish_no_marker _ _ htext]
  exact foldl_execTool_preserves wfs turn.toolCalls st hcalls

/-- The loop never performs more turns than its remaining budget. -/
theorem agentLoopAux_turns_le (wfs : FsWrite) (model : Nat → ModelTurn) :
    ∀ r done st, (agentLoopAux wfs model r done st).2 ≤ done + r := by
  intro r
  induction r with
  | zero => intro done st; simp [agentLoopAux]
  | succ r ih =>
    intro done st
    simp only [agentLoopAux]
    split
    · simp
    · exact Nat.le_trans (ih _ _) (by omega)

/-- With a model that always calls a non-finalize tool and never emits
a marker, the loop consumes its whole budget and ends with the summary
still unset. -/
theorem agentLoopAux_runs_out (wfs : FsWrite) (model : Nat → ModelTurn)
    (hmodel : ∀ n, (model n).toolCalls.isEmpty = false ∧
      hasFinalizeCall (model n) = false ∧
      extractTaskSummary (model n).text = none) :
    ∀ r done st, st.taskSummaryAchieved = false → st.summary = none →
    (agentLoopAux wfs model r done st).2 = done + r ∧
    (agentLoopAux wfs model r done st).1.summary = none := by
  intro r
  induction r with
  | zero => intro done st _ hsum; exact ⟨rfl, hsum⟩
  | succ r ih =>
    intro done st hflag hsum
    obtain ⟨hne, hnf, hnm⟩ := hmodel done
    have hcalls : ∀ c ∈ (model done).toolCalls, isFinalizeCall c = false := by
      intro c hc
      have := hnf
      unfold hasFinalizeCall at this
      rw [List.any_eq_false] at this
      simpa using this c hc
    have hpres := runTurn_no_summary wfs st (model done) hcalls hnm
    have hflag2 : (runTurn wfs st (model done)).taskSummaryAchieved = false :=
      hpres.2.trans hflag
    have hsum2 : (runTurn wfs st (model done)).summary = none :=
      hpres.1.trans hsum
    obtain ⟨ih1, ih2⟩ := ih (done + 1) (runTurn wfs st (model done)) hflag2 hsum2
    simp only [agentLoopAux, hne, hnf, hflag2, Bool.or_self, Bool.or_false,
      Bool.false_or, Bool.false_eq_true, if_false]
    exact ⟨by rw [ih1]; omega, ih2⟩

/-! ## Helper lemmas about the file map -/

/-- Lookup after a JS-object assignment: the assigned key now maps to
the new value and every other key is unchanged. -/
theorem getFile_setFile (m : FileMap) (p c q : String) :
    getFile (setFile m p c) q = if q = p then some c else getFile m q := by
  induction m with
  | nil =>
    by_cases h : q = p
    · subst h; simp [setFile, getFile]
    · simp [setFile, getFile, h, Ne.symm h]
  | cons kv rest ih =>
    obtain ⟨k, v⟩ := kv
    by_cases hkp : k = p
    · subst hkp
      by_cases hqk : q = k
      · subst hqk; simp [setFile, getFile]
      · simp [setFile, getFile, hqk, Ne.symm hqk]
    · by_cases hqk : q = k
      · subst hqk
        have hqp : ¬q = p := fun h => hkp h
        simp [setFile, getFile, hkp, hqp]
      · simp [setFile, getFile, hkp, hqk, Ne.symm hqk, ih]

/-- If every write to path `p` throws, then a `createOrUpdateFiles`
call whose file list mentions `p` ends in the error branch and leaves
the file map unchanged at `p`. -/
theorem createOrUpdateFilesLoop_fail (wfs : FsWrite) (p : String)
    (hp : ∀ c2, ∃ e, wfs p c2 = .error e) :
    ∀ (files : List (String × String)) (m : FileMap), p ∈ files.map Prod.fst →
    (∃ e, (createOrUpdateFilesLoop wfs m files).2 = some e) ∧
    getFile (createOrUpdateFilesLoop wfs m files).1 p = getFile m p := by
  intro files
  induction files with
  | nil => intro m h; simp at h
  | cons fc rest ih =>
    obtain ⟨q, c⟩ := fc
    intro m hmem
    cases hw : wfs q c with
    | error e =>
      have hres : createOrUpdateFilesLoop wfs m ((q, c) :: rest) = (m, some e) := by
        simp [createOrUpdateFilesLoop, hw]
      rw [hres]
      exact ⟨⟨e, rfl⟩, rfl⟩
    | ok u =>
      have hqp : q ≠ p := by
        intro h
        subst h
        obtain ⟨e, he⟩ := hp c
        rw [he] at hw
        cases hw
      have hmem2 : p ∈ rest.map Prod.fst := by
        simp only [List.map_cons, List.mem_cons] at hmem
        rcases hmem with h | h
        · exact absurd h.symm hqp
        · exact h
      have hres : createOrUpdateFilesLoop wfs m ((q, c) :: rest) =
          createOrUpdateFilesLoop wfs (setFile m q c) rest := by
        simp [createOrUpdateFilesLoop, hw]
      rw [hres]
      obtain ⟨ihe, ihg⟩ := ih (setFile m q c) hmem2
      refine ⟨ihe, ihg.trans ?_⟩
      rw [getFile_setFile]
      exact if_neg (fun h => hqp h.symm)

/-! ## Helper lemma about the duplicated read tools -/

/-- The two read loops (duplicated verbatim in the source) agree. -/
theorem readLoops_eq (fs : FsRead) : ∀ files,
    readFilesLoop fs files = readFileLoop fs files := by
  intro files
  induction files with
  | nil => rfl
  | cons p ps ih => simp only [readFilesLoop, readFileLoop, ih]

/-! ## Claim theorems -/

/-- Claim C7: for every input text, the summary extractor returns the
trimmed content of a case-insensitive marker pair when one is present
(with no side effects — the embedding is a pure function) and reports
absence (`none`) otherwise; in particular the spec's example input
yields the example summary. -/
theorem c7_extract_summary :
    (extractTaskSummary ("Done! <task_summary>Refactored the API client.</task_summary>")
      = some ("Refactored the API client.")) ∧
    (∀ s : String, extractTaskSummary s = none ↔ ¬ markerRegion s.toList) ∧
    (∀ s t, extractTaskSummary s = some t →
      ∃ pre o mid c post, s.toList = pre ++ o ++ mid ++ c ++ post ∧
        o.map Char.toLower = openTagChars ∧ c.map Char.toLower = closeTagChars ∧
        t = String.mk (trimChars mid)) := by
  refine ⟨by decide, ?_, ?_⟩
  · intro s
    constructor
    · intro h hm
      have hne := extractAux_complete s.toList hm
      unfold extractTaskSummary at h
      cases hx : extractAux s.toList with
      | none => exact hne hx
      | some content => rw [hx] at h; simp at h
    · intro hm
      unfold extractTaskSummary
      cases hx : extractAux s.toList with
      | none => rfl
      | some content =>
        obtain ⟨pre, o, c, post, hl, hmo, hmc⟩ := extractAux_sound s.toList content hx
        exact absurd ⟨pre, o, content, c, post, hl, hmo, hmc⟩ hm
  · intro s t h
    unfold extractTaskSummary at h
    cases hx : extractAux s.toList with
    | none => rw [hx] at h; simp at h
    | some content =>
      rw [hx] at h
      have h2 : String.mk (trimChars content) = t := by simpa using h
      obtain ⟨pre, o, c, post, hl, hmo, hmc⟩ := extractAux_sound s.toList content hx
      exact ⟨pre, o, content, c, post, hl, hmo, hmc, h2.symm⟩

/-- Witness for C7: the spec's example text decomposes around a marker
pair whose trimmed content is the extracted summary. -/
theorem c7_extract_summary_witness :
    ∃ pre o mid c post,
      ("Done! <task_summary>Refactored the API client.</task_summary>").toList
        = pre ++ o ++ mid ++ c ++ post ∧
      o.map Char.toLower = openTagChars ∧ c.map Char.toLower = closeTagChars ∧
      ("Refactored the API client.") = String.mk (trimChars mid) :=
  c7_extract_summary.2.2 _ _ (by decide)

/-- Claim C10: the `readFiles` tool and the `readFile` tool are
extensionally equal — same step name, and the same result for every
file-system oracle and path list. -/
theorem c10_read_tools_equal :
    readFilesStepName = readFileStepName ∧
    ∀ (fs : FsRead) (files : List String), readFilesExec fs files = readFileExec fs files := by
  refine ⟨rfl, ?_⟩
  intro fs files
  unfold readFilesExec readFileExec
  rw [readLoops_eq]

/-- Counterexample to C6 as stated: the one-space summary string is
non-empty, yet the finalize tool does not set the termination flag
(the recorded summary trims to empty, which is falsy). -/
theorem c6_finalize_counterexample :
    (" " : String) ≠ "" ∧
    (finalizeTaskStep initialState (" ")).1.taskSummaryAchieved = false ∧
    (finalizeTaskStep initialState (" ")).1.summary = some ("") := by
  refine ⟨by decide, by decide, by decide⟩

/-- Claim C6 (amended): for every call to the finalize tool whose
summary string trims to a non-empty string, the tool records the
trimmed summary, sets the termination flag, and returns the literal
acknowledgement; when the summary trims to empty, the (empty) summary
is still recorded, the acknowledgement is still returned, but the flag
is not set. -/
theorem c6_finalize_records (st : RunState) (s : String) :
    (jsTrim s ≠ "" →
      finalizeTaskStep st s =
        ({ st with summary := some (jsTrim s), taskSummaryAchieved := true }, "OK")) ∧
    (jsTrim s = "" →
      finalizeTaskStep st s =
        ({ st with summary := some (jsTrim s), taskSummaryAchieved := false }, "OK")) := by
  constructor
  · intro h
    unfold finalizeTaskStep
    simp [strTruthy, h]
  · intro h
    unfold finalizeTaskStep
    simp [strTruthy, h]

/-- Witness for C6 (amended): a concrete finalize call with a summary
that trims to a non-empty string. -/
theorem c6_finalize_records_witness :
    finalizeTaskStep initialState (" Added login page ") =
      ({ initialState with summary := some (jsTrim (" Added login page ")), taskSummaryAchieved := true }, "OK") :=
  (c6_finalize_records initialState (" Added login page ")).1 (by decide)

/-- Claim C1: the first non-empty summary wins — the text hook never
overwrites a truthy (set, non-empty) summary; a finalize call with a
summary trimming non-empty makes the summary truthy and sets the flag;
and a turn whose tool calls include finalize is the run's last turn,
so no later turn exists whose marker could overwrite it. -/
theorem c1_summary_precedence :
    (∀ (st : RunState) (text : String), strTruthy st.summary = true →
      onStepFinish st text = st) ∧
    (∀ (st : RunState) (s : String), jsTrim s ≠ "" →
      (finalizeTaskStep st s).1.summary = some (jsTrim s) ∧
      strTruthy (finalizeTaskStep st s).1.summary = true ∧
      (finalizeTaskStep st s).1.taskSummaryAchieved = true) ∧
    (∀ (wfs : FsWrite) (model : Nat → ModelTurn) (r done : Nat) (st : RunState),
      hasFinalizeCall (model done) = true →
      agentLoopAux wfs model (r + 1) done st = (runTurn wfs st (model done), done + 1)) := by
  refine ⟨?_, ?_, ?_⟩
  · intro st text h
    simp [onStepFinish, h]
  · intro st s h
    unfold finalizeTaskStep
    simp [strTruthy, h]
  · intro wfs model r done st h
    simp [agentLoopAux, h]

/-- Witness for C1: the spec's precedence example — after finalize has
recorded a non-empty summary, a later marker does not overwrite it —
plus concrete instances of the other two conjuncts. -/
theorem c1_summary_precedence_witness :
    (onStepFinish ⟨[], some ("Added login page"), true⟩
        ("<task_summary>Something else</task_summary>")
      = ⟨[], some ("Added login page"), true⟩) ∧
    ((finalizeTaskStep initialState ("Added login page")).1.summary
      = some (jsTrim ("Added login page"))) ∧
    (agentLoopAux (fun _ _ => .ok ())
        (fun _ => ⟨[ToolCall.finalizeTaskCall ("done")], ""⟩) 10 0 initialState
      = (runTurn (fun _ _ => .ok ()) initialState
          ⟨[ToolCall.finalizeTaskCall ("done")], ""⟩, 1)) :=
  ⟨c1_summary_precedence.1 _ _ (by decide),
   ((c1_summary_precedence.2.1 initialState ("Added login page")) (by decide)).1,
   c1_summary_precedence.2.2 _ _ 9 0 initialState (by decide)⟩

/-- Claim C8: write-files records each written file, later writes to
the same path overwrite earlier ones, and the tool returns the run's
accumulated file map; in particular the spec's two-call example leaves
the map at exactly the expected value. -/
theorem c8_write_files_accumulate :
    ((createOrUpdateFilesExec (fun _ _ => .ok ())
        (createOrUpdateFilesExec (fun _ _ => .ok ()) [] [(("a.txt"), ("1"))]).1
        [(("a.txt"), ("2")), (("b.txt"), ("x"))]).1
      = [(("a.txt"), ("2")), (("b.txt"), ("x"))]) ∧
    ((createOrUpdateFilesExec (fun _ _ => .ok ())
        (createOrUpdateFilesExec (fun _ _ => .ok ()) [] [(("a.txt"), ("1"))]).1
        [(("a.txt"), ("2")), (("b.txt"), ("x"))]).2
      = .files [(("a.txt"), ("2")), (("b.txt"), ("x"))]) ∧
    (∀ (m : FileMap) (p c q : String),
      getFile (setFile m p c) q = if q = p then some c else getFile m q) ∧
    (∀ (m : FileMap) (files : List (String × String)),
      (createOrUpdateFilesExec (fun _ _ => .ok ()) m files).2 =
        .files (createOrUpdateFilesExec (fun _ _ => .ok ()) m files).1) := by
  refine ⟨by decide, by decide, getFile_setFile, ?_⟩
  intro m files
  induction files generalizing m with
  | nil => rfl
  | cons fc rest ih =>
    obtain ⟨p, c⟩ := fc
    have hshift : createOrUpdateFilesExec (fun _ _ => (.ok () : Except String Unit)) m ((p, c) :: rest)
        = createOrUpdateFilesExec (fun _ _ => .ok ()) (setFile m p c) rest := by
      unfold createOrUpdateFilesExec
      simp [createOrUpdateFilesLoop]
    rw [hshift]
    exact ih (setFile m p c)

/-- Claim C9: when every write to some path in a write-files call
throws, the tool returns a textual error result (no exception escapes
— the embedding is total) and the run's file map is unchanged at the
failed path. -/
theorem c9_write_failure_contained (wfs : FsWrite) (m : FileMap)
    (files : List (String × String)) (p : String)
    (hp : ∀ c, ∃ e, wfs p c = .error e)
    (hmem : p ∈ files.map Prod.fst) :
    (∃ e, (createOrUpdateFilesExec wfs m files).2 = .err ("Error: " ++ e)) ∧
    getFile (createOrUpdateFilesExec wfs m files).1 p = getFile m p := by
  obtain ⟨⟨e, he⟩, hg⟩ := createOrUpdateFilesLoop_fail wfs p hp files m hmem
  unfold createOrUpdateFilesExec
  cases hl : createOrUpdateFilesLoop wfs m files with
  | mk m2 r =>
    rw [hl] at he hg
    simp only at he hg
    subst he
    exact ⟨⟨e, rfl⟩, hg⟩

/-- Witness for C9: a concrete write-files call against a file system
on which every write throws. -/
theorem c9_write_failure_contained_witness :
    (∃ e, (createOrUpdateFilesExec (fun _ _ => .error ("EACCES")) []
        [(("a.txt"), ("1"))]).2 = .err ("Error: " ++ e)) ∧
    getFile (createOrUpdateFilesExec (fun _ _ => .error ("EACCES")) []
        [(("a.txt"), ("1"))]).1 ("a.txt") = getFile [] ("a.txt") :=
  c9_write_failure_contained _ _ _ _ (fun c => ⟨("EACCES"), rfl⟩) (by decide)

/-- Counterexample to C2 as stated: an exception thrown by the initial
probe escapes the ensure-dev-server step — the liveness check can
raise. -/
theorem c2_liveness_counterexample :
    ensureDevServer (fun _ => .error ("boom")) (.ok ()) (.ok ()) = .error ("boom") := rfl

/-- Claim C2 (amended): once the initial probe has answered `false`,
every exception of the bootstrap (install or launch) or of the polling
loop is caught inside the step and returned as a descriptive error
outcome value; only an exception of the initial probe propagates. -/
theorem c2_liveness_errors_caught (probe : Nat → Except String Bool)
    (install launch : Except String Unit) :
    (probe 0 = .ok false → ∃ out, ensureDevServer probe install launch = .ok out) ∧
    (∀ e, probe 0 = .ok false → install = .error e →
      ensureDevServer probe install launch = .ok ("Error: " ++ e, 1, true)) ∧
    (∀ e, ensureDevServer probe install launch = .error e → probe 0 = .error e) := by
  refine ⟨?_, ?_, ?_⟩
  · intro h0
    unfold ensureDevServer
    rw [h0]
    cases install with
    | error e => exact ⟨_, rfl⟩
    | ok u =>
      cases launch with
      | error e => exact ⟨_, rfl⟩
      | ok v =>
        cases hp : pollLoop probe 1 maxPolls with
        | mk res k =>
          cases res with
          | ok o => exact ⟨_, rfl⟩
          | error e => exact ⟨_, rfl⟩
  · intro e h0 hi
    unfold ensureDevServer
    rw [h0, hi]
  · intro e h
    unfold ensureDevServer at h
    cases h0 : probe 0 with
    | error e2 =>
      rw [h0] at h
      injection h with he
      rw [he]
    | ok b =>
      rw [h0] at h
      exfalso
      cases b
      · cases install with
        | error e3 => simp at h
        | ok u =>
          cases launch with
          | error e3 => simp at h
          | ok v =>
            cases hp : pollLoop probe 1 maxPolls with
            | mk res k =>
              rw [hp] at h
              cases res with
              | ok o => simp at h
              | error e3 => simp at h
      · simp at h

/-- Witness for C2 (amended): a failing bootstrap install is caught
and converted to an error outcome, and a concrete application of the
never-raises part. -/
theorem c2_liveness_errors_caught_witness :
    (ensureDevServer (fun _ => .ok false) (.error ("ENOSPC")) (.ok ())
      = .ok ("Error: " ++ ("ENOSPC"), 1, true)) ∧
    (∃ out, ensureDevServer (fun _ => .ok false) (.ok ()) (.ok ()) = .ok out) :=
  ⟨(c2_liveness_errors_caught _ _ _).2.1 ("ENOSPC") rfl rfl,
   (c2_liveness_errors_caught _ _ _).1 rfl⟩

/-- Counterexample to C3 as stated: the terminal tool's failure result
is not of the form `Error: <cause>` — it begins with
`Command failed:`. -/
theorem c3_tool_error_counterexample :
    terminalExec (fun _ => .fail ("boom") ("") ("")) ("ls")
      = "Command failed: boom \n stdout:  \n stderr: " ∧
    ("Error:").toList.isPrefixOf
      (terminalExec (fun _ => .fail ("boom") ("") ("")) ("ls")).toList = false := by
  exact ⟨by decide, by decide⟩

/-- Claim C3 (amended): every tool's execute is total over its oracle
(no exception escapes to the loop) and on failure of the underlying
action returns a plain-text error string — of the form
`Error: <cause>` for every tool except terminal, which returns
`Command failed: <cause>` together with the partial captured output. -/
theorem c3_tool_error_containment :
    (∀ (runCmd : CmdRunner) (command : String),
      (∃ out, runCmd command = .ok out ∧ terminalExec runCmd command = out) ∨
      (∃ e po pe, runCmd command = .fail e po pe ∧
        terminalExec runCmd command =
          "Command failed: " ++ e ++ " \n stdout: " ++ po ++ " \n stderr: " ++ pe)) ∧
    (∀ (fs : FsRead) (files : List String),
      (∃ contents, readFilesExec fs files = jsonStringifyFiles contents) ∨
      (∃ e, readFilesExec fs files = "Error: " ++ e)) ∧
    (∀ (fs : FsRead) (files : List String),
      (∃ contents, readFileExec fs files = jsonStringifyFiles contents) ∨
      (∃ e, readFileExec fs files = "Error: " ++ e)) ∧
    (∀ (wfs : FsWrite) (m : FileMap) (files : List (String × String)),
      (∃ m2, createOrUpdateFilesExec wfs m files = (m2, .files m2)) ∨
      (∃ m2 e, createOrUpdateFilesExec wfs m files = (m2, .err ("Error: " ++ e)))) ∧
    (∀ (runCmd : CmdRunner) (install : Bool) (cmd : String),
      (∃ pid, startDevServerExec runCmd install cmd = "Started dev server with PID " ++ pid) ∨
      (∃ e, startDevServerExec runCmd install cmd = "Error: " ++ e)) ∧
    (∀ runCmd : CmdRunner,
      (∃ code, checkServerStatusExec runCmd = "HTTP " ++ code) ∨
      (∃ e, checkServerStatusExec runCmd = "Error: " ++ e)) ∧
    (∀ (st : RunState) (s : String), (finalizeTaskStep st s).2 = "OK") := by
  refine ⟨?_, ?_, ?_, ?_, ?_, ?_, fun st s => rfl⟩
  · intro runCmd command
    cases h : runCmd command with
    | ok out => exact Or.inl ⟨out, rfl, by unfold terminalExec; rw [h]⟩
    | fail e po pe => exact Or.inr ⟨e, po, pe, rfl, by unfold terminalExec; rw [h]⟩
  · intro fs files
    unfold readFilesExec
    cases h : readFilesLoop fs files with
    | ok contents => exact Or.inl ⟨contents, rfl⟩
    | error e => exact Or.inr ⟨e, rfl⟩
  · intro fs files
    unfold readFileExec
    cases h : readFileLoop fs files with
    | ok contents => exact Or.inl ⟨contents, rfl⟩
    | error e => exact Or.inr ⟨e, rfl⟩
  · intro wfs m files
    unfold createOrUpdateFilesExec
    cases h : createOrUpdateFilesLoop wfs m files with
    | mk m2 r =>
      cases r with
      | none => exact Or.inl ⟨m2, rfl⟩
      | some e => exact Or.inr ⟨m2, e, rfl⟩
  · intro runCmd install cmd
    have hlaunch : (∃ pid, startDevLaunchPart runCmd cmd = "Started dev server with PID " ++ pid) ∨
        (∃ e, startDevLaunchPart runCmd cmd = "Error: " ++ e) := by
      unfold startDevLaunchPart
      cases h : runCmd (startLaunchCmd cmd) with
      | ok out => exact Or.inl ⟨jsTrim out, rfl⟩
      | fail e po pe => exact Or.inr ⟨e, rfl⟩
    cases install with
    | false => exact hlaunch
    | true =>
      unfold startDevServerExec
      cases h : runCmd startInstallCmd with
      | fail e po pe => exact Or.inr ⟨e, rfl⟩
      | ok out => exact hlaunch
  · intro runCmd
    unfold checkServerStatusExec
    cases h : runCmd curlProbeCmd with
    | ok out => exact Or.inl ⟨jsTrim out, rfl⟩
    | fail e po pe => exact Or.inr ⟨e, rfl⟩

/-- Claim C4: the step-count ceiling is a hard upper bound — for every
write oracle, model and start state the loop performs at most 10 model
turns; and with a model that never calls finalize, never emits a
marker, and never stops calling tools, the loop from the initial state
performs exactly 10 turns and ends with the summary absent. -/
theorem c4_step_ceiling (wfs : FsWrite) (model : Nat → ModelTurn) :
    (∀ st : RunState, (agentLoop wfs model st).2 ≤ 10) ∧
    ((∀ n, (model n).toolCalls ≠ [] ∧ hasFinalizeCall (model n) = false ∧
        extractTaskSummary (model n).text = none) →
      (agentLoop wfs model initialState).2 = 10 ∧
      (agentLoop wfs model initialState).1.summary = none) := by
  constructor
  · intro st
    have h := agentLoopAux_turns_le wfs model stepCountLimit 0 st
    simpa [agentLoop, stepCountLimit] using h
  · intro h
    have hm : ∀ n, (model n).toolCalls.isEmpty = false ∧
        hasFinalizeCall (model n) = false ∧
        extractTaskSummary (model n).text = none := by
      intro n
      refine ⟨?_, (h n).2.1, (h n).2.2⟩
      cases hl : (model n).toolCalls with
      | nil => exact absurd hl (h n).1
      | cons a l => rfl
    have hrun := agentLoopAux_runs_out wfs model hm stepCountLimit 0 initialState rfl rfl
    exact ⟨hrun.1, hrun.2⟩

/-- Witness for C4: a concrete model that always calls the terminal
tool and never finalizes nor emits a marker runs for exactly 10 turns
and leaves the summary absent. -/
theorem c4_step_ceiling_witness :
    (agentLoop (fun _ _ => .ok ())
        (fun _ => ⟨[ToolCall.terminal ("ls")], "working"⟩) initialState).2 = 10 ∧
    (agentLoop (fun _ _ => .ok ())
        (fun _ => ⟨[ToolCall.terminal ("ls")], "working"⟩) initialState).1.summary = none :=
  (c4_step_ceiling _ _).2 (fun n => ⟨by simp, by decide, by decide⟩)

/-- Claim C5: the liveness prober returns `up` at once (never
bootstrapping) when the first probe succeeds; otherwise it bootstraps
exactly once (install, then detached launch redirected to the log) and
polls up to 30 times, returning `started` on the first success —
after k failed polls and one successful one it has made k + 2 probe
calls in total — and `timeout` after exactly 30 failed polls. -/
theorem c5_liveness_algorithm (probe : Nat → Except String Bool)
    (install launch : Except String Unit) :
    (probe 0 = .ok true →
      ensureDevServer probe install launch = .ok ("up", 1, false)) ∧
    (∀ k, install = .ok () → launch = .ok () → probe 0 = .ok false →
      (∀ j, 1 ≤ j → j ≤ k → probe j = .ok false) → probe (k + 1) = .ok true →
      k + 1 ≤ maxPolls →
      ensureDevServer probe install launch = .ok ("started", k + 2, true)) ∧
    (install = .ok () → launch = .ok () →
      (∀ j, j ≤ maxPolls → probe j = .ok false) →
      ensureDevServer probe install launch = .ok ("timeout", 1 + maxPolls, true)) ∧
    (containsSub (("nohup").toList) devLaunchCmd.toList = true ∧
     containsSub (("/tmp/dev.log").toList) devLaunchCmd.toList = true ∧
     containsSub (("pnpm i").toList) devInstallCmd.toList = true) := by
  refine ⟨?_, ?_, ?_, by decide, by decide, by decide⟩
  · intro h0
    unfold ensureDevServer
    rw [h0]
  · intro k hi hl h0 hfalse htrue hk
    have hpoll := pollLoop_started probe k 1 maxPolls (by omega)
      (fun j hj => hfalse (1 + j) (by omega) (by omega))
      (by rw [Nat.add_comm 1 k]; exact htrue)
    unfold ensureDevServer
    rw [h0, hi, hl, hpoll]
    have h12 : 1 + (k + 1) = k + 2 := by omega
    simp [h12]
  · intro hi hl hfalse
    have hpoll := pollLoop_timeout probe maxPolls 1
      (fun j hj => hfalse (1 + j) (by omega))
    unfold ensureDevServer
    rw [hfalse 0 (by omega), hi, hl, hpoll]

/-- Witness for C5: concrete probes — already up; up after one failed
poll and one successful poll; never up. -/
theorem c5_liveness_algorithm_witness :
    (ensureDevServer (fun _ => .ok true) (.ok ()) (.ok ()) = .ok ("up", 1, false)) ∧
    (ensureDevServer (fun i => .ok (i == 2)) (.ok ()) (.ok ())
      = .ok ("started", 3, true)) ∧
    (ensureDevServer (fun _ => .ok false) (.ok ()) (.ok ())
      = .ok ("timeout", 31, true)) :=
  ⟨(c5_liveness_algorithm _ _ _).1 rfl,
   (c5_liveness_algorithm _ _ _).2.1 1 rfl rfl rfl
     (fun j h1 h2 => by
       have hj : j = 1 := by omega
       rw [hj]
       rfl)
     rfl (by decide),
   (c5_liveness_algorithm _ _ _).2.2.1 rfl rfl (fun j hj => rfl)⟩

end Lovable
